import Mathlib

/-
  Verification of the Game of Life CUDA kernel
  (src/GameofLife/GameofLife/kernel.cu).

  The generation-update engine is embedded shallowly:
  a device buffer of unsigned char cells becomes a function
  from row-major index to cell value (a natural number);
  the updateGrid kernel body becomes per-cell functions
  (neighborCount, nextCell) plus an explicit fold over thread
  coordinates acting on a two-buffer state, so that the tiling
  into CUDA blocks and the read/write separation are visible.
-/

namespace GameOfLife

/-- Grid width constant from kernel.cu (GRID_WIDTH = 100). -/
def GRID_WIDTH : Nat := 100

/-- Grid height constant from kernel.cu (GRID_HEIGHT = 80). -/
def GRID_HEIGHT : Nat := 80

/-- CUDA block size constant from kernel.cu (BLOCK_SIZE = 2). -/
def BLOCK_SIZE : Nat := 2

/-- Update cadence constant from kernel.cu (UPDATE_FREQUENCY = 6). -/
def UPDATE_FREQUENCY : Nat := 6

/-- The (dx, dy) pairs visited by the two nested loops of updateGrid,
in execution order (dy outer from -1 to 1, dx inner from -1 to 1),
with (0, 0) skipped by the continue. -/
def neighborOffsets : List (Int × Int) :=
  [(-1, -1), (0, -1), (1, -1), (-1, 0), (1, 0), (-1, 1), (0, 1), (1, 1)]

/-- The row-major buffer index `ny * width + nx` of the neighbor of
(x, y) at offset d, with each axis wrapped as in updateGrid:
`nx = (x + dx + width) % width`, `ny = (y + dy + height) % height`.
The C arithmetic is on nonnegative int values, so Int.emod is exact. -/
def neighborIndex (width height : Nat) (x y : Nat) (d : Int × Int) : Nat :=
  let nx := (((x : Int) + d.1 + (width : Int)) % (width : Int)).toNat
  let ny := (((y : Int) + d.2 + (height : Int)) % (height : Int)).toNat
  ny * width + nx

/-- The eight wrapped buffer indices read by the neighbor loops of
updateGrid for the cell at (x, y). -/
def neighborIndices (width height : Nat) (x y : Nat) : List Nat :=
  neighborOffsets.map (neighborIndex width height x y)

/-- The accumulated `count` of updateGrid: the sum of the raw byte
values `d_grid[ny * width + nx]` over the eight wrapped neighbors. -/
def neighborCount (d_grid : Nat → Nat) (width height : Nat) (x y : Nat) : Nat :=
  ((neighborIndices width height x y).map d_grid).sum

/-- The value updateGrid stores at `d_newGrid[y * width + x]`:
`(count == 3 || (count == 2 && d_grid[idx])) ? 1 : 0`, where the C
truth test `d_grid[idx]` means the byte is nonzero. -/
def nextCell (d_grid : Nat → Nat) (width height : Nat) (x y : Nat) : Nat :=
  if neighborCount d_grid width height x y = 3 ∨
      (neighborCount d_grid width height x y = 2 ∧ d_grid (y * width + x) ≠ 0) then 1 else 0

/-- The pair of device buffers passed to the kernel. -/
structure GridState where
  d_grid : Nat → Nat
  d_newGrid : Nat → Nat

/-- Pointwise store into a buffer. -/
def writeCell (g : Nat → Nat) (idx v : Nat) : Nat → Nat :=
  fun i => if i = idx then v else g i

/-- The work of the single thread responsible for the in-bounds cell
p = (x, y): read the current buffer, write one cell of the next buffer. -/
def threadStep (width height : Nat) (st : GridState) (p : Nat × Nat) : GridState :=
  { d_grid := st.d_grid,
    d_newGrid := writeCell st.d_newGrid (p.2 * width + p.1)
      (nextCell st.d_grid width height p.1 p.2) }

/-- Run the threads of one tile (one CUDA block, after the bounds guard)
in sequence. -/
def runTile (width height : Nat) (st : GridState) (tile : List (Nat × Nat)) : GridState :=
  tile.foldl (threadStep width height) st

/-- Run a whole tiling (the CUDA grid of blocks) tile by tile. -/
def runTiling (width height : Nat) (st : GridState)
    (tiles : List (List (Nat × Nat))) : GridState :=
  tiles.foldl (runTile width height) st

/-- Every in-bounds coordinate, row by row: the single-tile (serial)
schedule of the kernel. -/
def allCoords (width height : Nat) : List (Nat × Nat) :=
  (List.range height).flatMap (fun y => (List.range width).map (fun x => (x, y)))

/-- A valid tiling: tiles hold only in-bounds coordinates, cover every
in-bounds coordinate, and no coordinate appears twice. -/
def ValidTiling (width height : Nat) (tiles : List (List (Nat × Nat))) : Prop :=
  (∀ t ∈ tiles, ∀ p ∈ t, p.1 < width ∧ p.2 < height) ∧
  (∀ x, x < width → ∀ y, y < height → (x, y) ∈ tiles.flatten) ∧
  tiles.flatten.Nodup

instance (width height : Nat) (tiles : List (List (Nat × Nat))) :
    Decidable (ValidTiling width height tiles) := by
  unfold ValidTiling; infer_instance

/-- Number of CUDA blocks along one axis:
`(extent + BLOCK_SIZE - 1) / BLOCK_SIZE` from main. -/
def cudaGridDim (extent bsize : Nat) : Nat := (extent + bsize - 1) / bsize

/-- The in-bounds coordinates handled by CUDA block (b1, b2): the
bsize x bsize threads of the block, filtered by the kernel guard
`x < width && y < height`. -/
def cudaTile (width height bsize : Nat) (b1 b2 : Nat) : List (Nat × Nat) :=
  ((List.range bsize).flatMap fun ty => (List.range bsize).map fun tx =>
    (b1 * bsize + tx, b2 * bsize + ty)).filter
    (fun p => p.1 < width && p.2 < height)

/-- The full CUDA decomposition of the grid into blocks. -/
def cudaTiling (width height bsize : Nat) : List (List (Nat × Nat)) :=
  (List.range (cudaGridDim height bsize)).flatMap fun b2 =>
    (List.range (cudaGridDim width bsize)).map fun b1 =>
      cudaTile width height bsize b1 b2

/-- One generation as a buffer-to-buffer function: the cell the kernel
writes at in-bounds index i, read back through i = y * width + x. -/
def updateGridFun (d_grid : Nat → Nat) (width height : Nat) : Nat → Nat :=
  fun i => nextCell d_grid width height (i % width) (i / width)

/-- n generations of the update starting from buffer g. -/
def generations (width height : Nat) (g : Nat → Nat) : Nat → (Nat → Nat)
  | 0 => g
  | n + 1 => updateGridFun (generations width height g n) width height

/-- The grid produced by initializeGrid: cell i holds the i-th draw of
`dis(gen)`, a value from the inclusive range 0..1 of
`uniform_int_distribution(0, 1)`, encoded as Fin 2. -/
def initializeGrid (draws : Nat → Fin 2) (width height : Nat) : Nat → Nat :=
  fun i => (draws i).val

/-- State of the main render loop: the frame counter, the two device
buffers, and a ghost count of buffer swaps performed so far. -/
structure LoopState where
  frameCount : Nat
  bufs : GridState
  swaps : Nat

/-- One iteration of the main loop (SDL event handling and rendering
elided): when frameCount % UPDATE_FREQUENCY == 0 the kernel is launched
over the CUDA tiling and the two buffer pointers are swapped; in every
case frameCount is incremented once at the end of the iteration. -/
def loopIter (width height : Nat) (s : LoopState) : LoopState :=
  if s.frameCount % UPDATE_FREQUENCY = 0 then
    let run := runTiling width height s.bufs (cudaTiling width height BLOCK_SIZE)
    { frameCount := s.frameCount + 1,
      bufs := { d_grid := run.d_newGrid, d_newGrid := run.d_grid },
      swaps := s.swaps + 1 }
  else
    { frameCount := s.frameCount + 1, bufs := s.bufs, swaps := s.swaps }

/-- n iterations of the main loop. -/
def loopRun (width height : Nat) (s : LoopState) : Nat → LoopState
  | 0 => s
  | n + 1 => loopIter width height (loopRun width height s n)

/-- Checked read of a device buffer held as a list of bytes: out of
bounds yields none instead of undefined behavior. -/
def neighborCountChecked (d_grid : List Nat) (width height x y : Nat) : Option Nat := do
  let vs ← (neighborIndices width height x y).mapM (fun i => d_grid[i]?)
  pure vs.sum

/-- The kernel body with every buffer access checked: none exactly when
some access of updateGrid would be out of bounds. -/
def nextCellChecked (d_grid : List Nat) (width height x y : Nat) : Option Nat := do
  let count ← neighborCountChecked d_grid width height x y
  let c ← d_grid[y * width + x]?
  pure (if count = 3 ∨ (count = 2 ∧ c ≠ 0) then 1 else 0)

/-- Count of the eight neighbor positions of (x, y) on the unbounded
plane that lie in the finite live set S. -/
def planeCount (S : List (Int × Int)) (x y : Int) : Nat :=
  neighborOffsets.countP (fun d => decide ((x + d.1, y + d.2) ∈ S))

/-- The life rule applied on the unbounded plane to the live set S. -/
def planeNext (S : List (Int × Int)) (x y : Int) : Bool :=
  planeCount S x y == 3 || (planeCount S x y == 2 && decide ((x, y) ∈ S))

/-- The five live cells of the standard glider, placed with its bounding
box at columns 3..5 and rows 3..5. -/
def gliderCells : List (Int × Int) := [(4, 3), (5, 4), (3, 5), (4, 5), (5, 5)]

/-- A buffer whose live cells are exactly the glider. -/
def gliderGrid (width : Nat) : Nat → Nat :=
  fun i => if (((i % width : Nat) : Int), ((i / width : Nat) : Int)) ∈ gliderCells
    then 1 else 0

/-- The glider after one ideal step. -/
def gliderPhase1 : List (Int × Int) := [(3, 4), (5, 4), (4, 5), (5, 5), (4, 6)]

/-- The glider after two ideal steps. -/
def gliderPhase2 : List (Int × Int) := [(5, 4), (3, 5), (5, 5), (4, 6), (5, 6)]

/-- The glider after three ideal steps. -/
def gliderPhase3 : List (Int × Int) := [(4, 4), (5, 5), (6, 5), (4, 6), (5, 6)]

/-- The glider after four ideal steps: the original cells translated
by (+1, +1). -/
def gliderPhase4 : List (Int × Int) := [(5, 4), (6, 5), (4, 6), (5, 6), (6, 6)]

/-- Row-major packing: an in-bounds coordinate gives an in-bounds index. -/
lemma rowMajor_lt (w h x y : Nat) (hx : x < w) (hy : y < h) : y * w + x < w * h := by
  calc y * w + x < y * w + w := by omega
    _ = (y + 1) * w := by ring
    _ ≤ h * w := Nat.mul_le_mul_right w hy
    _ = w * h := Nat.mul_comm h w

/-- Row-major unpacking recovers the column. -/
lemma rowMajor_mod (w x y : Nat) (hx : x < w) : (y * w + x) % w = x := by
  rw [Nat.add_comm, Nat.add_mul_mod_self_right, Nat.mod_eq_of_lt hx]

/-- Row-major unpacking recovers the row. -/
lemma rowMajor_div (w x y : Nat) (hx : x < w) : (y * w + x) / w = y := by
  have hw : 0 < w := lt_of_le_of_lt (Nat.zero_le x) hx
  rw [Nat.add_comm, Nat.add_mul_div_right x y hw, Nat.div_eq_of_lt hx, Nat.zero_add]

/-- Every neighbor index computed by the wrapped addressing is in bounds. -/
lemma neighborIndex_lt (width height : Nat) (hw : 0 < width) (hh : 0 < height)
    (x y : Nat) (d : Int × Int) : neighborIndex width height x y d < width * height := by
  unfold neighborIndex
  have hwz : (0 : Int) < (width : Int) := by exact_mod_cast hw
  have hhz : (0 : Int) < (height : Int) := by exact_mod_cast hh
  have h1 := Int.emod_lt_of_pos ((x : Int) + d.1 + (width : Int)) hwz
  have h1n : 0 ≤ ((x : Int) + d.1 + (width : Int)) % (width : Int) :=
    Int.emod_nonneg _ (ne_of_gt hwz)
  have h2 := Int.emod_lt_of_pos ((y : Int) + d.2 + (height : Int)) hhz
  have h2n : 0 ≤ ((y : Int) + d.2 + (height : Int)) % (height : Int) :=
    Int.emod_nonneg _ (ne_of_gt hhz)
  refine rowMajor_lt width height _ _ (by omega) (by omega)

/-- A sum of cell bytes that are each at most 1 is the count of the
nonzero ones. -/
lemma sum_map_eq_countP (g : Nat → Nat) :
    ∀ l : List Nat, (∀ i ∈ l, g i ≤ 1) →
      (l.map g).sum = l.countP (fun i => decide (g i ≠ 0)) := by
  intro l
  induction l with
  | nil => intro _; simp
  | cons a l ih =>
    intro hg
    have ha : g a ≤ 1 := hg a (by simp)
    have hl := ih (fun i hi => hg i (by simp [hi]))
    simp only [List.map_cons, List.sum_cons, List.countP_cons, hl]
    interval_cases hga : g a <;> simp <;> omega

/-- Evaluate a wrapped neighbor index once both axis remainders are
known as plain naturals. -/
lemma neighborIndex_eval (width height x y nx ny : Nat) (d : Int × Int)
    (hx : (((x : Int) + d.1 + (width : Int)) % (width : Int)) = (nx : Int))
    (hy2 : (((y : Int) + d.2 + (height : Int)) % (height : Int)) = (ny : Int)) :
    neighborIndex width height x y d = ny * width + nx := by
  unfold neighborIndex
  rw [hx, hy2]
  simp

/-- Adding the axis extent before taking the remainder is the identity
on values already in range. -/
lemma emod_add_extent (w : Nat) (u : Int) (h0 : 0 ≤ u) (h1 : u < (w : Int)) :
    (u + (w : Int)) % (w : Int) = u := by
  have h : u + (w : Int) = u + (w : Int) * 1 := by ring
  rw [h, Int.add_mul_emod_self_left, Int.emod_eq_of_lt h0 h1]

/-- Claim C1: the update rule maps (current state, neighbor count) to
the next state as: alive (value 1) when the count is 3, or the count is
2 and the cell byte is nonzero; dead (value 0) in every other case — so
a cell with 3 live neighbors is alive next generation, an alive cell
with 2 stays alive, and a dead cell with 2 stays dead. -/
theorem updateGrid_rule (d_grid : Nat → Nat) (width height x y : Nat) :
    (nextCell d_grid width height x y = 1 ↔
      (neighborCount d_grid width height x y = 3 ∨
        (neighborCount d_grid width height x y = 2 ∧ d_grid (y * width + x) ≠ 0))) ∧
    (¬(neighborCount d_grid width height x y = 3 ∨
        (neighborCount d_grid width height x y = 2 ∧ d_grid (y * width + x) ≠ 0)) →
      nextCell d_grid width height x y = 0) ∧
    (neighborCount d_grid width height x y = 3 → nextCell d_grid width height x y = 1) ∧
    (neighborCount d_grid width height x y = 2 → d_grid (y * width + x) ≠ 0 →
      nextCell d_grid width height x y = 1) ∧
    (neighborCount d_grid width height x y = 2 → d_grid (y * width + x) = 0 →
      nextCell d_grid width height x y = 0) := by
  unfold nextCell
  split_ifs with hc
  · refine ⟨by simp [hc], fun hn => absurd hc hn, fun _ => rfl, fun _ _ => rfl, ?_⟩
    intro h2 h0
    rcases hc with h3 | ⟨_, hne⟩
    · omega
    · exact absurd h0 hne
  · refine ⟨by simp [hc], fun _ => rfl, fun h3 => absurd (Or.inl h3) hc, ?_, fun _ _ => rfl⟩
    intro h2 hne
    exact absurd (Or.inr ⟨h2, hne⟩) hc

/-- For a buffer of 0/1 cells the summed neighbor bytes are the count
of live neighbor positions. -/
lemma neighborCount_eq_countP (d_grid : Nat → Nat) (width height x y : Nat)
    (hw : 0 < width) (hh : 0 < height)
    (hg : ∀ i, i < width * height → d_grid i ≤ 1) :
    neighborCount d_grid width height x y =
      (neighborIndices width height x y).countP (fun i => decide (d_grid i ≠ 0)) := by
  have hmem : ∀ i ∈ neighborIndices width height x y, d_grid i ≤ 1 := by
    intro i hi
    obtain ⟨d, _, rfl⟩ := List.mem_map.mp hi
    exact hg _ (neighborIndex_lt width height hw hh x y d)
  exact sum_map_eq_countP d_grid _ hmem

/-- Claim C2: for an in-bounds coordinate and a buffer of 0/1 cells,
the computed neighbor count is exactly the number of live cells among
the eight wrapped neighbor positions, and lies in the range 0..8. -/
theorem neighborCount_correct (d_grid : Nat → Nat) (width height x y : Nat)
    (hx : x < width) (hy : y < height)
    (hg : ∀ i, i < width * height → d_grid i ≤ 1) :
    neighborCount d_grid width height x y =
      (neighborIndices width height x y).countP (fun i => decide (d_grid i ≠ 0)) ∧
    neighborCount d_grid width height x y ≤ 8 := by
  have hw : 0 < width := lt_of_le_of_lt (Nat.zero_le x) hx
  have hh : 0 < height := lt_of_le_of_lt (Nat.zero_le y) hy
  have hcount := neighborCount_eq_countP d_grid width height x y hw hh hg
  refine ⟨hcount, ?_⟩
  rw [hcount]
  calc (neighborIndices width height x y).countP (fun i => decide (d_grid i ≠ 0))
      ≤ (neighborIndices width height x y).length := List.countP_le_length _
    _ = 8 := by simp [neighborIndices, neighborOffsets]

/-- Claim C4: on a toroidal W x H grid each corner cell counts the
diagonally opposite corner among its eight neighbors: the neighbor
index list of (0, 0) contains the index of (W-1, H-1), that of
(W-1, H-1) contains the index of (0, 0), that of (0, H-1) contains the
index of (W-1, 0), and that of (W-1, 0) contains the index of (0, H-1). -/
theorem corner_wrap (width height : Nat) (hw : 0 < width) (hh : 0 < height) :
    ((height - 1) * width + (width - 1)) ∈ neighborIndices width height 0 0 ∧
    0 ∈ neighborIndices width height (width - 1) (height - 1) ∧
    (width - 1) ∈ neighborIndices width height 0 (height - 1) ∧
    ((height - 1) * width) ∈ neighborIndices width height (width - 1) 0 := by
  have hwz : (0 : Int) < (width : Int) := by exact_mod_cast hw
  have hhz : (0 : Int) < (height : Int) := by exact_mod_cast hh
  have hxlo : (((0 : Nat) : Int) + (-1) + (width : Int)) % (width : Int) =
      ((width - 1 : Nat) : Int) := by
    rw [show ((0 : Nat) : Int) + (-1) + (width : Int) = ((width : Int) - 1) + 0 from by ring]
    rw [Int.emod_eq_of_lt (by omega) (by omega)]
    omega
  have hylo : (((0 : Nat) : Int) + (-1) + (height : Int)) % (height : Int) =
      ((height - 1 : Nat) : Int) := by
    rw [show ((0 : Nat) : Int) + (-1) + (height : Int) = ((height : Int) - 1) + 0 from by ring]
    rw [Int.emod_eq_of_lt (by omega) (by omega)]
    omega
  have hxhi : (((width - 1 : Nat) : Int) + 1 + (width : Int)) % (width : Int) =
      ((0 : Nat) : Int) := by
    rw [show ((width - 1 : Nat) : Int) + 1 + (width : Int) =
      (((width - 1 : Nat) : Int) + 1 - (width : Int)) + (width : Int) * 2 from by ring]
    rw [Int.add_mul_emod_self_left, Int.emod_eq_of_lt (by omega) (by omega)]
    omega
  have hyhi : (((height - 1 : Nat) : Int) + 1 + (height : Int)) % (height : Int) =
      ((0 : Nat) : Int) := by
    rw [show ((height - 1 : Nat) : Int) + 1 + (height : Int) =
      (((height - 1 : Nat) : Int) + 1 - (height : Int)) + (height : Int) * 2 from by ring]
    rw [Int.add_mul_emod_self_left, Int.emod_eq_of_lt (by omega) (by omega)]
    omega
  have hxmid : ∀ x : Nat, x < width →
      (((x : Int) + 0 + (width : Int)) % (width : Int)) = ((x : Nat) : Int) := by
    intro x hx
    rw [show ((x : Int) + 0 + (width : Int)) = ((x : Int)) + (width : Int) from by ring]
    exact emod_add_extent width _ (by omega) (by omega)
  have hymid : ∀ y : Nat, y < height →
      (((y : Int) + 0 + (height : Int)) % (height : Int)) = ((y : Nat) : Int) := by
    intro y hy
    rw [show ((y : Int) + 0 + (height : Int)) = ((y : Int)) + (height : Int) from by ring]
    exact emod_add_extent height _ (by omega) (by omega)
  refine ⟨?_, ?_, ?_, ?_⟩
  · exact List.mem_map.mpr ⟨(-1, -1), by decide,
      neighborIndex_eval width height 0 0 (width - 1) (height - 1) (-1, -1) hxlo hylo⟩
  · have h := neighborIndex_eval width height (width - 1) (height - 1) 0 0 (1, 1) hxhi hyhi
    exact List.mem_map.mpr ⟨(1, 1), by decide, h.trans (by omega)⟩
  · have h := neighborIndex_eval width height 0 (height - 1) (width - 1) 0 (-1, 1) hxlo hyhi
    exact List.mem_map.mpr ⟨(-1, 1), by decide, h.trans (by omega)⟩
  · have h := neighborIndex_eval width height (width - 1) 0 0 (height - 1) (1, -1) hxhi hylo
    exact List.mem_map.mpr ⟨(1, -1), by decide, h.trans (by omega)⟩

/-- Witness for C4 on a 3 x 4 grid. -/
theorem corner_wrap_witness :
    ((4 - 1) * 3 + (3 - 1)) ∈ neighborIndices 3 4 0 0 ∧
    0 ∈ neighborIndices 3 4 (3 - 1) (4 - 1) ∧
    (3 - 1) ∈ neighborIndices 3 4 0 (4 - 1) ∧
    ((4 - 1) * 3) ∈ neighborIndices 3 4 (3 - 1) 0 :=
  corner_wrap 3 4 (by decide) (by decide)

/-- Running a tile never changes the current buffer. -/
lemma runTile_d_grid (width height : Nat) :
    ∀ (tile : List (Nat × Nat)) (st : GridState),
      (runTile width height st tile).d_grid = st.d_grid := by
  intro tile
  induction tile with
  | nil => intro st; rfl
  | cons q t ih =>
    intro st
    show (runTile width height (threadStep width height st q) t).d_grid = st.d_grid
    rw [ih]
    rfl

/-- Running a whole tiling never changes the current buffer. -/
lemma runTiling_d_grid (width height : Nat) :
    ∀ (tiles : List (List (Nat × Nat))) (st : GridState),
      (runTiling width height st tiles).d_grid = st.d_grid := by
  intro tiles
  induction tiles with
  | nil => intro st; rfl
  | cons t ts ih =>
    intro st
    show (runTiling width height (runTile width height st t) ts).d_grid = st.d_grid
    rw [ih, runTile_d_grid]

/-- What one tile leaves in the next buffer: the kernel value at every
index the tile owns, the old contents elsewhere. -/
lemma runTile_d_newGrid (width height : Nat) :
    ∀ (tile : List (Nat × Nat)) (st : GridState),
      (∀ p ∈ tile, p.1 < width ∧ p.2 < height) →
      ∀ i, (runTile width height st tile).d_newGrid i =
        if ∃ p ∈ tile, p.2 * width + p.1 = i
        then nextCell st.d_grid width height (i % width) (i / width)
        else st.d_newGrid i := by
  intro tile
  induction tile with
  | nil =>
    intro st _ i
    simp [runTile]
  | cons q t ih =>
    intro st hb i
    show (runTile width height (threadStep width height st q) t).d_newGrid i = _
    rw [ih (threadStep width height st q) (fun p hp => hb p (List.mem_cons_of_mem q hp)) i]
    by_cases hqt : ∃ p ∈ t, p.2 * width + p.1 = i
    · rw [if_pos hqt,
        if_pos (by obtain ⟨p, hp, he⟩ := hqt; exact ⟨p, List.mem_cons_of_mem q hp, he⟩)]
      rfl
    · rw [if_neg hqt]
      show writeCell st.d_newGrid (q.2 * width + q.1)
        (nextCell st.d_grid width height q.1 q.2) i = _
      unfold writeCell
      by_cases hi : i = q.2 * width + q.1
      · rw [if_pos hi, if_pos ⟨q, List.mem_cons_self q t, hi.symm⟩]
        have hq := hb q (List.mem_cons_self q t)
        have h1 : i % width = q.1 := by rw [hi]; exact rowMajor_mod width q.1 q.2 hq.1
        have h2 : i / width = q.2 := by rw [hi]; exact rowMajor_div width q.1 q.2 hq.1
        rw [h1, h2]
      · rw [if_neg hi, if_neg ?goal]
        case goal =>
          rintro ⟨p, hp, he⟩
          rcases List.mem_cons.mp hp with rfl | hpt
          · exact hi he.symm
          · exact hqt ⟨p, hpt, he⟩

/-- What a whole tiling leaves in the next buffer. -/
lemma runTiling_d_newGrid (width height : Nat) :
    ∀ (tiles : List (List (Nat × Nat))) (st : GridState),
      (∀ t ∈ tiles, ∀ p ∈ t, p.1 < width ∧ p.2 < height) →
      ∀ i, (runTiling width height st tiles).d_newGrid i =
        if ∃ p ∈ tiles.flatten, p.2 * width + p.1 = i
        then nextCell st.d_grid width height (i % width) (i / width)
        else st.d_newGrid i := by
  intro tiles
  induction tiles with
  | nil =>
    intro st _ i
    simp [runTiling]
  | cons t ts ih =>
    intro st hb i
    show (runTiling width height (runTile width height st t) ts).d_newGrid i = _
    rw [ih (runTile width height st t)
      (fun u hu => hb u (List.mem_cons_of_mem t hu)) i]
    rw [runTile_d_grid]
    by_cases hts : ∃ p ∈ ts.flatten, p.2 * width + p.1 = i
    · rw [if_pos hts, if_pos (by
        obtain ⟨p, hp, he⟩ := hts
        exact ⟨p, by rw [List.flatten_cons]; exact List.mem_append_right t hp, he⟩)]
    · rw [if_neg hts, runTile_d_newGrid width height t st (hb t (List.mem_cons_self t ts)) i]
      by_cases hT : ∃ p ∈ t, p.2 * width + p.1 = i
      · rw [if_pos hT, if_pos (by
          obtain ⟨p, hp, he⟩ := hT
          exact ⟨p, by rw [List.flatten_cons]; exact List.mem_append_left _ hp, he⟩)]
      · rw [if_neg hT, if_neg ?goal]
        case goal =>
          rintro ⟨p, hp, he⟩
          rw [List.flatten_cons, List.mem_append] at hp
          rcases hp with hp | hp
          · exact hT ⟨p, hp, he⟩
          · exact hts ⟨p, hp, he⟩

/-- Membership in the row-by-row coordinate enumeration. -/
lemma mem_allCoords (width height : Nat) (p : Nat × Nat) :
    p ∈ allCoords width height ↔ p.1 < width ∧ p.2 < height := by
  obtain ⟨a, b⟩ := p
  simp only [allCoords, List.mem_flatMap, List.mem_map, List.mem_range, Prod.mk.injEq]
  constructor
  · rintro ⟨y, hy, x, hx, rfl, rfl⟩
    exact ⟨hx, hy⟩
  · rintro ⟨ha, hb⟩
    exact ⟨b, hb, a, ha, rfl, rfl⟩

/-- An index is covered by the full enumeration exactly when it is in
bounds. -/
lemma exists_allCoords (width height i : Nat) :
    (∃ p ∈ allCoords width height, p.2 * width + p.1 = i) ↔ i < width * height := by
  constructor
  · rintro ⟨p, hp, rfl⟩
    have h := (mem_allCoords width height p).mp hp
    exact rowMajor_lt width height p.1 p.2 h.1 h.2
  · intro hi
    rcases Nat.eq_zero_or_pos width with hw | hw
    · subst hw; simp at hi
    rcases Nat.eq_zero_or_pos height with hh | hh
    · subst hh; simp at hi
    refine ⟨(i % width, i / width), ?_, ?_⟩
    · refine (mem_allCoords width height _).mpr ⟨Nat.mod_lt i hw, ?_⟩
      exact Nat.div_lt_of_lt_mul hi
    · show (i / width) * width + i % width = i
      rw [Nat.mul_comm]
      exact Nat.div_add_mod i width

/-- Claim C3: one generation is partition-invariant — for every current
buffer and every valid tiling (disjoint in-bounds tiles covering every
cell exactly once, of which the BLOCK_SIZE x BLOCK_SIZE CUDA block
decomposition is an instance) the next buffer produced tile by tile is
bit-identical to the next buffer produced by one tile holding the whole
grid. -/
theorem partition_invariance (width height : Nat) (st : GridState)
    (tiles : List (List (Nat × Nat))) (hv : ValidTiling width height tiles) :
    (runTiling width height st tiles).d_newGrid =
      (runTile width height st (allCoords width height)).d_newGrid := by
  funext i
  obtain ⟨hb, hcover, _⟩ := hv
  rw [runTiling_d_newGrid width height tiles st hb i]
  rw [runTile_d_newGrid width height (allCoords width height) st
    (fun p hp => (mem_allCoords width height p).mp hp) i]
  have h1 : (∃ p ∈ tiles.flatten, p.2 * width + p.1 = i) ↔ i < width * height := by
    constructor
    · rintro ⟨p, hp, rfl⟩
      obtain ⟨t, ht, hpt⟩ := List.mem_flatten.mp hp
      have h := hb t ht p hpt
      exact rowMajor_lt width height p.1 p.2 h.1 h.2
    · intro hi
      obtain ⟨p, hp, he⟩ := (exists_allCoords width height i).mpr hi
      have h := (mem_allCoords width height p).mp hp
      exact ⟨p, hcover p.1 h.1 p.2 h.2, he⟩
  rw [if_congr (h1.trans (exists_allCoords width height i).symm) rfl rfl]

/-- Witness for C3: the 2 x 2 CUDA block decomposition of a 4 x 4 grid
against the single-tile evaluation. -/
theorem partition_invariance_witness :
    (runTiling 4 4 ⟨fun i => i % 2, fun _ => 0⟩ (cudaTiling 4 4 2)).d_newGrid =
      (runTile 4 4 ⟨fun i => i % 2, fun _ => 0⟩ (allCoords 4 4)).d_newGrid :=
  partition_invariance 4 4 ⟨fun i => i % 2, fun _ => 0⟩ (cudaTiling 4 4 2) (by decide)

/-- Claim C7: during a generation the current buffer is read-only — the
kernel writes only the next buffer, so after running any tiling (and
any single tile) the current buffer is identical to what it was before
the update. -/
theorem current_buffer_readonly (width height : Nat) (st : GridState)
    (tiles : List (List (Nat × Nat))) (tile : List (Nat × Nat)) :
    (runTiling width height st tiles).d_grid = st.d_grid ∧
    (runTile width height st tile).d_grid = st.d_grid :=
  ⟨runTiling_d_grid width height tiles st, runTile_d_grid width height tile st⟩

/-- Witness for C2 at a concrete 2 x 2 grid with one live cell. -/
theorem neighborCount_correct_witness :
    neighborCount (fun i => if i = 0 then 1 else 0) 2 2 0 0 =
      (neighborIndices 2 2 0 0).countP
        (fun i => decide ((fun i => if i = 0 then 1 else 0) i ≠ 0)) ∧
    neighborCount (fun i => if i = 0 then 1 else 0) 2 2 0 0 ≤ 8 :=
  neighborCount_correct (fun i => if i = 0 then 1 else 0) 2 2 0 0
    (by decide) (by decide) (by decide)

/-- A cell set bounded away from the vertical wrap seam excludes any
position whose column is on or beyond the seam. -/
lemma not_mem_fst (w : Nat) (S : List (Int × Int))
    (hS : ∀ p ∈ S, 1 ≤ p.1 ∧ p.1 + 1 < (w : Int)) (q : Int × Int)
    (hq : q.1 ≤ 0 ∨ (w : Int) - 1 ≤ q.1) : q ∉ S := by
  intro hmem
  have := hS q hmem
  omega

/-- A cell set bounded away from the horizontal wrap seam excludes any
position whose row is on or beyond the seam. -/
lemma not_mem_snd (h : Nat) (S : List (Int × Int))
    (hS : ∀ p ∈ S, 1 ≤ p.2 ∧ p.2 + 1 < (h : Int)) (q : Int × Int)
    (hq : q.2 ≤ 0 ∨ (h : Int) - 1 ≤ q.2) : q ∉ S := by
  intro hmem
  have := hS q hmem
  omega

/-- One axis of the wrapped addressing: for an offset coordinate u with
-1 <= u <= w, either the wrap is the identity (u in range), or both the
wrapped value and u itself land on the seam columns excluded by a
seam-avoiding cell set. -/
lemma axis_wrap (w : Nat) (hw : 0 < w) (u : Int) (h1 : -1 ≤ u) (h2 : u ≤ (w : Int)) :
    (u + (w : Int)) % (w : Int) = u ∨
    (((u + (w : Int)) % (w : Int) ≤ 0 ∨ (w : Int) - 1 ≤ (u + (w : Int)) % (w : Int)) ∧
      (u ≤ 0 ∨ (w : Int) - 1 ≤ u)) := by
  rcases (by omega : (0 ≤ u ∧ u < (w : Int)) ∨ u = -1 ∨ u = (w : Int)) with h | h | h
  · exact Or.inl (emod_add_extent w u h.1 h.2)
  · right
    have he : (u + (w : Int)) % (w : Int) = (w : Int) - 1 := by
      rw [h, show (-1 : Int) + (w : Int) = (w : Int) - 1 from by ring]
      exact Int.emod_eq_of_lt (by omega) (by omega)
    exact ⟨Or.inr (le_of_eq he.symm), Or.inl (by omega)⟩
  · right
    have he : (u + (w : Int)) % (w : Int) = 0 := by
      rw [h, show (w : Int) + (w : Int) = (w : Int) * 2 from by ring, Int.mul_emod_right]
    exact ⟨Or.inl (le_of_eq he), Or.inr (by omega)⟩

/-- A sum of 0/1 indicator values over a list is a count. -/
lemma sum_map_indicator {α : Type} (p : α → Prop) [DecidablePred p] (f : α → Nat) :
    ∀ l : List α, (∀ a ∈ l, f a = if p a then 1 else 0) →
      (l.map f).sum = l.countP (fun a => decide (p a)) := by
  intro l
  induction l with
  | nil => intro _; rfl
  | cons a t ih =>
    intro h
    rw [List.map_cons, List.sum_cons, List.countP_cons,
      ih (fun b hb => h b (List.mem_cons_of_mem a hb)), h a (List.mem_cons_self a t)]
    by_cases hp : p a <;> simp [hp] <;> omega

/-- The bridge between the torus and the infinite plane: while the live
set stays strictly inside the grid (at least one dead ring before each
seam), the kernel computes at every in-bounds cell exactly the
infinite-plane life step of that set. -/
lemma plane_bridge (width height : Nat) (S : List (Int × Int))
    (hS : ∀ p ∈ S, 1 ≤ p.1 ∧ p.1 + 1 < (width : Int) ∧
      1 ≤ p.2 ∧ p.2 + 1 < (height : Int))
    (g : Nat → Nat)
    (hg : ∀ x y : Nat, x < width → y < height →
      g (y * width + x) = if ((x : Int), (y : Int)) ∈ S then 1 else 0)
    (x y : Nat) (hx : x < width) (hy : y < height) :
    updateGridFun g width height (y * width + x) =
      if planeNext S (x : Int) (y : Int) = true then 1 else 0 := by
  have hwpos : 0 < width := lt_of_le_of_lt (Nat.zero_le x) hx
  have hhpos : 0 < height := lt_of_le_of_lt (Nat.zero_le y) hy
  have hS1 : ∀ p ∈ S, 1 ≤ p.1 ∧ p.1 + 1 < (width : Int) := fun p hp => ⟨(hS p hp).1, (hS p hp).2.1⟩
  have hS2 : ∀ p ∈ S, 1 ≤ p.2 ∧ p.2 + 1 < (height : Int) := fun p hp => ⟨(hS p hp).2.2.1, (hS p hp).2.2.2⟩
  have hterm : ∀ d ∈ neighborOffsets,
      g (neighborIndex width height x y d) =
        if ((x : Int) + d.1, (y : Int) + d.2) ∈ S then 1 else 0 := by
    intro d hd
    have hdb : (-1 ≤ d.1 ∧ d.1 ≤ 1) ∧ (-1 ≤ d.2 ∧ d.2 ≤ 1) := by
      fin_cases hd <;> refine ⟨⟨by norm_num, by norm_num⟩, ⟨by norm_num, by norm_num⟩⟩
    show g ((((y : Int) + d.2 + (height : Int)) % (height : Int)).toNat * width +
      (((x : Int) + d.1 + (width : Int)) % (width : Int)).toNat) = _
    have hnx0 : 0 ≤ ((x : Int) + d.1 + (width : Int)) % (width : Int) :=
      Int.emod_nonneg _ (by omega)
    have hnx1 : ((x : Int) + d.1 + (width : Int)) % (width : Int) < (width : Int) :=
      Int.emod_lt_of_pos _ (by omega)
    have hny0 : 0 ≤ ((y : Int) + d.2 + (height : Int)) % (height : Int) :=
      Int.emod_nonneg _ (by omega)
    have hny1 : ((y : Int) + d.2 + (height : Int)) % (height : Int) < (height : Int) :=
      Int.emod_lt_of_pos _ (by omega)
    have hgx := hg ((((x : Int) + d.1 + (width : Int)) % (width : Int)).toNat)
      ((((y : Int) + d.2 + (height : Int)) % (height : Int)).toNat) (by omega) (by omega)
    rw [hgx, Int.toNat_of_nonneg hnx0, Int.toNat_of_nonneg hny0]
    have hxw := axis_wrap width hwpos ((x : Int) + d.1) (by omega) (by omega)
    have hyw := axis_wrap height hhpos ((y : Int) + d.2) (by omega) (by omega)
    rcases hxw with hxe | ⟨hxa, hxb⟩
    · rcases hyw with hye | ⟨hya, hyb⟩
      · rw [show (x : Int) + d.1 + (width : Int) = ((x : Int) + d.1) + (width : Int) from rfl,
          show (y : Int) + d.2 + (height : Int) = ((y : Int) + d.2) + (height : Int) from rfl,
          hxe, hye]
      · rw [if_neg (not_mem_snd height S hS2 _ (by exact hya)),
          if_neg (not_mem_snd height S hS2 _ (by exact hyb))]
    · rw [if_neg (not_mem_fst width S hS1 _ (by exact hxa)),
        if_neg (not_mem_fst width S hS1 _ (by exact hxb))]
  have hcount : neighborCount g width height x y = planeCount S (x : Int) (y : Int) := by
    unfold neighborCount neighborIndices
    rw [List.map_map]
    exact sum_map_indicator (fun d => ((x : Int) + d.1, (y : Int) + d.2) ∈ S)
      _ neighborOffsets hterm
  have hown := hg x y hx hy
  show nextCell g width height ((y * width + x) % width) ((y * width + x) / width) =
    if planeNext S (x : Int) (y : Int) = true then 1 else 0
  rw [rowMajor_mod width x y hx, rowMajor_div width x y hx]
  unfold nextCell
  rw [hcount, hown]
  have hiff : (planeCount S (x : Int) (y : Int) = 3 ∨
      (planeCount S (x : Int) (y : Int) = 2 ∧
        (if ((x : Int), (y : Int)) ∈ S then (1 : Nat) else 0) ≠ 0)) ↔
      (planeNext S (x : Int) (y : Int) = true) := by
    unfold planeNext
    by_cases hmem : ((x : Int), (y : Int)) ∈ S <;> simp [hmem]
  rw [if_congr hiff rfl rfl]

/-- A cell the plane step turns or keeps alive has a live neighbor, so
it lies within one step of the bounding box of the live set. -/
lemma planeNext_bounds (S : List (Int × Int)) (lo hi : Int)
    (hS : ∀ p ∈ S, lo ≤ p.1 ∧ p.1 ≤ hi ∧ lo ≤ p.2 ∧ p.2 ≤ hi) (x y : Int)
    (h : planeNext S x y = true) :
    lo - 1 ≤ x ∧ x ≤ hi + 1 ∧ lo - 1 ≤ y ∧ y ≤ hi + 1 := by
  have hcnt : 0 < planeCount S x y := by
    unfold planeNext at h
    simp only [Bool.or_eq_true, beq_iff_eq, Bool.and_eq_true] at h
    rcases h with h | ⟨h, _⟩ <;> omega
  obtain ⟨d, hd, hmem⟩ := List.countP_pos_iff.mp hcnt
  have hp := hS _ (of_decide_eq_true hmem)
  have hdb : (-1 ≤ d.1 ∧ d.1 ≤ 1) ∧ (-1 ≤ d.2 ∧ d.2 ≤ 1) := by
    fin_cases hd <;> refine ⟨⟨by norm_num, by norm_num⟩, ⟨by norm_num, by norm_num⟩⟩
  simp only at hp
  omega

/-- One ideal step takes the glider to phase 1. -/
lemma glider_step1 : ∀ x y : Int,
    planeNext gliderCells x y = true ↔ (x, y) ∈ gliderPhase1 := by
  intro x y
  constructor
  · intro h
    obtain ⟨h1, h2, h3, h4⟩ := planeNext_bounds gliderCells 3 6 (by decide) x y h
    interval_cases x <;> interval_cases y <;> revert h <;> decide
  · intro h
    fin_cases h <;> decide

/-- One ideal step takes phase 1 to phase 2. -/
lemma glider_step2 : ∀ x y : Int,
    planeNext gliderPhase1 x y = true ↔ (x, y) ∈ gliderPhase2 := by
  intro x y
  constructor
  · intro h
    obtain ⟨h1, h2, h3, h4⟩ := planeNext_bounds gliderPhase1 3 6 (by decide) x y h
    interval_cases x <;> interval_cases y <;> revert h <;> decide
  · intro h
    fin_cases h <;> decide

/-- One ideal step takes phase 2 to phase 3. -/
lemma glider_step3 : ∀ x y : Int,
    planeNext gliderPhase2 x y = true ↔ (x, y) ∈ gliderPhase3 := by
  intro x y
  constructor
  · intro h
    obtain ⟨h1, h2, h3, h4⟩ := planeNext_bounds gliderPhase2 3 6 (by decide) x y h
    interval_cases x <;> interval_cases y <;> revert h <;> decide
  · intro h
    fin_cases h <;> decide

/-- One ideal step takes phase 3 to phase 4, the glider translated by
(+1, +1). -/
lemma glider_step4 : ∀ x y : Int,
    planeNext gliderPhase3 x y = true ↔ (x, y) ∈ gliderPhase4 := by
  intro x y
  constructor
  · intro h
    obtain ⟨h1, h2, h3, h4⟩ := planeNext_bounds gliderPhase3 3 6 (by decide) x y h
    interval_cases x <;> interval_cases y <;> revert h <;> decide
  · intro h
    fin_cases h <;> decide

/-- Claim C6: glider translation — on any toroidal grid of width and
height at least 10 whose only live cells are the glider (placed with
its bounding box at columns and rows 3..5), after exactly 4 generations
the live cells are exactly the glider cells translated by (+1, +1)
modulo the grid dimensions, and every other cell is dead. -/
theorem glider_translation (width height : Nat) (hw : 10 ≤ width) (hh : 10 ≤ height) :
    ∀ x y : Nat, x < width → y < height →
      generations width height (gliderGrid width) 4 (y * width + x) =
        if ((x : Int), (y : Int)) ∈
            gliderCells.map
              (fun p => ((p.1 + 1) % (width : Int), (p.2 + 1) % (height : Int)))
        then 1 else 0 := by
  have hwi : (10 : Int) ≤ (width : Int) := by exact_mod_cast hw
  have hhi : (10 : Int) ≤ (height : Int) := by exact_mod_cast hh
  have box : ∀ S : List (Int × Int),
      (∀ p ∈ S, 3 ≤ p.1 ∧ p.1 ≤ 6 ∧ 3 ≤ p.2 ∧ p.2 ≤ 6) →
      ∀ p ∈ S, 1 ≤ p.1 ∧ p.1 + 1 < (width : Int) ∧
        1 ≤ p.2 ∧ p.2 + 1 < (height : Int) := by
    intro S hB p hp
    have := hB p hp
    omega
  have hg0 : ∀ x y : Nat, x < width → y < height →
      gliderGrid width (y * width + x) =
        if ((x : Int), (y : Int)) ∈ gliderCells then 1 else 0 := by
    intro x y hx hy
    unfold gliderGrid
    rw [rowMajor_mod width x y hx, rowMajor_div width x y hx]
  have hg1 : ∀ x y : Nat, x < width → y < height →
      generations width height (gliderGrid width) 1 (y * width + x) =
        if ((x : Int), (y : Int)) ∈ gliderPhase1 then 1 else 0 := by
    intro x y hx hy
    show updateGridFun (gliderGrid width) width height (y * width + x) = _
    rw [plane_bridge width height gliderCells (box gliderCells (by decide))
      (gliderGrid width) hg0 x y hx hy]
    rw [if_congr (glider_step1 (x : Int) (y : Int)) rfl rfl]
  have hg2 : ∀ x y : Nat, x < width → y < height →
      generations width height (gliderGrid width) 2 (y * width + x) =
        if ((x : Int), (y : Int)) ∈ gliderPhase2 then 1 else 0 := by
    intro x y hx hy
    show updateGridFun (generations width height (gliderGrid width) 1)
      width height (y * width + x) = _
    rw [plane_bridge width height gliderPhase1 (box gliderPhase1 (by decide))
      (generations width height (gliderGrid width) 1) hg1 x y hx hy]
    rw [if_congr (glider_step2 (x : Int) (y : Int)) rfl rfl]
  have hg3 : ∀ x y : Nat, x < width → y < height →
      generations width height (gliderGrid width) 3 (y * width + x) =
        if ((x : Int), (y : Int)) ∈ gliderPhase3 then 1 else 0 := by
    intro x y hx hy
    show updateGridFun (generations width height (gliderGrid width) 2)
      width height (y * width + x) = _
    rw [plane_bridge width height gliderPhase2 (box gliderPhase2 (by decide))
      (generations width height (gliderGrid width) 2) hg2 x y hx hy]
    rw [if_congr (glider_step3 (x : Int) (y : Int)) rfl rfl]
  have hg4 : ∀ x y : Nat, x < width → y < height →
      generations width height (gliderGrid width) 4 (y * width + x) =
        if ((x : Int), (y : Int)) ∈ gliderPhase4 then 1 else 0 := by
    intro x y hx hy
    show updateGridFun (generations width height (gliderGrid width) 3)
      width height (y * width + x) = _
    rw [plane_bridge width height gliderPhase3 (box gliderPhase3 (by decide))
      (generations width height (gliderGrid width) 3) hg3 x y hx hy]
    rw [if_congr (glider_step4 (x : Int) (y : Int)) rfl rfl]
  have e4w : ((3 : Int) + 1) % (width : Int) = 4 := by
    rw [show (3 : Int) + 1 = 4 from by norm_num]
    exact Int.emod_eq_of_lt (by omega) (by omega)
  have e5w : ((4 : Int) + 1) % (width : Int) = 5 := by
    rw [show (4 : Int) + 1 = 5 from by norm_num]
    exact Int.emod_eq_of_lt (by omega) (by omega)
  have e6w : ((5 : Int) + 1) % (width : Int) = 6 := by
    rw [show (5 : Int) + 1 = 6 from by norm_num]
    exact Int.emod_eq_of_lt (by omega) (by omega)
  have e4h : ((3 : Int) + 1) % (height : Int) = 4 := by
    rw [show (3 : Int) + 1 = 4 from by norm_num]
    exact Int.emod_eq_of_lt (by omega) (by omega)
  have e5h : ((4 : Int) + 1) % (height : Int) = 5 := by
    rw [show (4 : Int) + 1 = 5 from by norm_num]
    exact Int.emod_eq_of_lt (by omega) (by omega)
  have e6h : ((5 : Int) + 1) % (height : Int) = 6 := by
    rw [show (5 : Int) + 1 = 6 from by norm_num]
    exact Int.emod_eq_of_lt (by omega) (by omega)
  have hmap : gliderCells.map
      (fun p => ((p.1 + 1) % (width : Int), (p.2 + 1) % (height : Int))) =
      gliderPhase4 := by
    simp only [gliderCells, gliderPhase4, List.map_cons, List.map_nil]
    rw [e4w, e5w, e6w, e4h, e5h, e6h]
  intro x y hx hy
  rw [hg4 x y hx hy, hmap]

/-- Witness for C6 on the 10 x 10 grid at the cell (6, 5), a live cell
of the translated glider. -/
theorem glider_translation_witness :
    generations 10 10 (gliderGrid 10) 4 (5 * 10 + 6) =
      if ((6 : Int), (5 : Int)) ∈
          gliderCells.map
            (fun p => ((p.1 + 1) % ((10 : Nat) : Int), (p.2 + 1) % ((10 : Nat) : Int)))
      then 1 else 0 :=
  glider_translation 10 10 (by decide) (by decide) 6 5 (by decide) (by decide)

/-- Claim C5: the all-dead grid is a fixed point — on a positive-size
grid whose current buffer is dead at every in-bounds cell, every cell
is still dead after any number of generations. -/
theorem all_dead_fixed (width height : Nat) (hw : 0 < width) (hh : 0 < height)
    (g : Nat → Nat) (hg : ∀ i, i < width * height → g i = 0) :
    ∀ n i, i < width * height → generations width height g n i = 0 := by
  intro n
  induction n with
  | zero => exact hg
  | succ n ih =>
    intro i _
    show updateGridFun (generations width height g n) width height i = 0
    have hz : ∀ v ∈ (neighborIndices width height (i % width) (i / width)).map
        (generations width height g n), v = 0 := by
      intro v hv
      obtain ⟨j, hj, rfl⟩ := List.mem_map.mp hv
      obtain ⟨d, _, rfl⟩ := List.mem_map.mp hj
      exact ih _ (neighborIndex_lt width height hw hh _ _ d)
    have hcount : neighborCount (generations width height g n) width height
        (i % width) (i / width) = 0 := List.sum_eq_zero hz
    unfold updateGridFun nextCell
    rw [hcount]
    simp

/-- Witness for C5: a dead 1 x 1 grid is still dead after three
generations. -/
theorem all_dead_fixed_witness : generations 1 1 (fun _ => 0) 3 0 = 0 :=
  all_dead_fixed 1 1 (by decide) (by decide) (fun _ => 0)
    (fun _ _ => rfl) 3 0 (by decide)

/-- Claim C9: every cell value is 0 or 1 — the initializer stores a
draw from 0..1 in every cell, the kernel writes only 0 or 1, the
invariant is preserved over any number of generations, and it is what
makes the byte-summing neighbor count equal the live-neighbor count. -/
theorem cells_zero_or_one (draws : Nat → Fin 2) (g : Nat → Nat)
    (width height x y : Nat) (hx : x < width) (hy : y < height)
    (hg : ∀ i, i < width * height → g i ≤ 1) :
    initializeGrid draws width height (y * width + x) ≤ 1 ∧
    nextCell g width height x y ≤ 1 ∧
    (∀ n i, i < width * height → generations width height g n i ≤ 1) ∧
    neighborCount g width height x y =
      (neighborIndices width height x y).countP (fun i => decide (g i ≠ 0)) := by
  have hw : 0 < width := lt_of_le_of_lt (Nat.zero_le x) hx
  have hh : 0 < height := lt_of_le_of_lt (Nat.zero_le y) hy
  refine ⟨?_, ?_, ?_, ?_⟩
  · exact Nat.lt_succ_iff.mp (draws (y * width + x)).isLt
  · unfold nextCell
    split_ifs <;> decide
  · intro n
    induction n with
    | zero => exact hg
    | succ n _ =>
      intro i _
      show updateGridFun (generations width height g n) width height i ≤ 1
      unfold updateGridFun nextCell
      split_ifs <;> decide
  · exact neighborCount_eq_countP g width height x y hw hh hg

/-- Witness for C9 on a dead 1 x 1 grid. -/
theorem cells_zero_or_one_witness :
    initializeGrid (fun _ => (0 : Fin 2)) 1 1 (0 * 1 + 0) ≤ 1 ∧
    nextCell (fun _ => 0) 1 1 0 0 ≤ 1 ∧
    (∀ n i, i < 1 * 1 → generations 1 1 (fun _ => 0) n i ≤ 1) ∧
    neighborCount (fun _ => 0) 1 1 0 0 =
      (neighborIndices 1 1 0 0).countP
        (fun i => decide ((fun _ => (0 : Nat)) i ≠ 0)) :=
  cells_zero_or_one (fun _ => (0 : Fin 2)) (fun _ => 0) 1 1 0 0
    (by decide) (by decide) (fun _ _ => Nat.zero_le 1)

/-- A checked traversal of in-range indices succeeds and reads the same
bytes as the unchecked one. -/
lemma mapM_getElem_eq (g : List Nat) :
    ∀ l : List Nat, (∀ i ∈ l, i < g.length) →
      l.mapM (fun i => g[i]?) = some (l.map (fun i => g.getD i 0)) := by
  intro l
  induction l with
  | nil => intro _; rfl
  | cons a t ih =>
    intro h
    have ha : a < g.length := h a (List.mem_cons_self a t)
    rw [List.mapM_cons, ih (fun i hi => h i (List.mem_cons_of_mem a hi))]
    rw [List.getElem?_eq_getElem ha]
    simp [List.getD_eq_getElem g 0 ha]
    rw [List.getElem?_eq_getElem ha]
    rfl

/-- Claim C10: for every in-bounds thread coordinate, the single write
index is in bounds and the kernel body with checked (Option-valued)
buffer accesses never takes the out-of-bounds branch: it returns
exactly the unchecked value. -/
theorem kernel_memory_safe (d_grid : List Nat) (width height x y : Nat)
    (hx : x < width) (hy : y < height) (hlen : d_grid.length = width * height) :
    y * width + x < width * height ∧
    nextCellChecked d_grid width height x y =
      some (nextCell (fun i => d_grid.getD i 0) width height x y) := by
  have hw : 0 < width := lt_of_le_of_lt (Nat.zero_le x) hx
  have hh : 0 < height := lt_of_le_of_lt (Nat.zero_le y) hy
  have hidx := rowMajor_lt width height x y hx hy
  refine ⟨hidx, ?_⟩
  have hb : ∀ i ∈ neighborIndices width height x y, i < d_grid.length := by
    intro i hi
    obtain ⟨d, _, rfl⟩ := List.mem_map.mp hi
    rw [hlen]
    exact neighborIndex_lt width height hw hh x y d
  have hidx2 : y * width + x < d_grid.length := by rw [hlen]; exact hidx
  unfold nextCellChecked neighborCountChecked
  rw [mapM_getElem_eq d_grid _ hb, List.getElem?_eq_getElem hidx2]
  show some (if _ = 3 ∨ (_ = 2 ∧ _) then 1 else 0) = _
  rw [← List.getD_eq_getElem d_grid 0 hidx2]
  rfl

/-- Witness for C10 on a dead 1 x 1 grid held as the list [0]. -/
theorem kernel_memory_safe_witness :
    0 * 1 + 0 < 1 * 1 ∧
    nextCellChecked [0] 1 1 0 0 =
      some (nextCell (fun i => [0].getD i 0) 1 1 0 0) :=
  kernel_memory_safe [0] 1 1 0 0 (by decide) (by decide) rfl

/-- Counterexample to C8 as stated: on the iteration that starts at
frame count 1 no swap is performed (the swap count stays 0 and the
buffers are untouched), yet the counter still increases by 1. -/
theorem frame_counter_not_swap_counter :
    (loopIter GRID_WIDTH GRID_HEIGHT
      ⟨1, ⟨fun _ => 0, fun _ => 0⟩, 0⟩).swaps = 0 ∧
    (loopIter GRID_WIDTH GRID_HEIGHT
      ⟨1, ⟨fun _ => 0, fun _ => 0⟩, 0⟩).bufs = ⟨fun _ => 0, fun _ => 0⟩ ∧
    (loopIter GRID_WIDTH GRID_HEIGHT
      ⟨1, ⟨fun _ => 0, fun _ => 0⟩, 0⟩).frameCount = 1 + 1 := by
  refine ⟨rfl, rfl, rfl⟩

/-- Claim C8 as amended: the counter of the main loop counts frames,
not swaps — it increases by exactly 1 on every iteration, a swap is
performed exactly on iterations whose frame count is divisible by
UPDATE_FREQUENCY, and on the other iterations the counter still
advances while the buffers stay untouched. -/
theorem frame_counter_amended (width height : Nat) (s : LoopState) :
    (loopIter width height s).frameCount = s.frameCount + 1 ∧
    (s.frameCount % UPDATE_FREQUENCY = 0 →
      (loopIter width height s).swaps = s.swaps + 1) ∧
    (s.frameCount % UPDATE_FREQUENCY ≠ 0 →
      (loopIter width height s).swaps = s.swaps ∧
      (loopIter width height s).bufs = s.bufs) ∧
    (∀ n, (loopRun width height s n).frameCount = s.frameCount + n) := by
  refine ⟨?_, ?_, ?_, ?_⟩
  · unfold loopIter
    split_ifs <;> rfl
  · intro h
    unfold loopIter
    rw [if_pos h]
  · intro h
    unfold loopIter
    rw [if_neg h]
    exact ⟨rfl, rfl⟩
  · intro n
    induction n with
    | zero => rfl
    | succ n ih =>
      show (loopIter width height (loopRun width height s n)).frameCount = _
      have h1 : (loopIter width height (loopRun width height s n)).frameCount =
          (loopRun width height s n).frameCount + 1 := by
        unfold loopIter
        split_ifs <;> rfl
      rw [h1, ih]
      omega

end GameOfLife
